import Mathlib

/-!
Verification of the GHCR container-registry metadata resolver of
cockpit-container-packages (src/unnamed/part_001, ImageSearchModal).

The resolver's pure logic — repository-name parsing, tag deduplication and
ordering, manifest-index platform selection, config-label extraction, the
token-broker strategy sequence, the in-memory caches and their reload-time
invalidation, and the batch description enrichment — is embedded below as
executable Lean definitions.  External effects (cockpit.spawn of the bash
scripts, JSON parsing of wire data) are modelled by small environment
records: an `Option`/`Except` value stands for "the command/parse succeeded
with this output" versus "it failed", exactly at the points where the
JavaScript observes success or failure.
-/

/-- Models JavaScript `String.prototype.trim` / Python `str.strip`:
remove whitespace from both ends. -/
def jsTrim (s : String) : String :=
  ⟨((s.data.dropWhile Char.isWhitespace).reverse.dropWhile Char.isWhitespace).reverse⟩

/-- Models JavaScript `String.prototype.startsWith`. -/
def jsStartsWith (s pre : String) : Bool :=
  pre.data.isPrefixOf s.data

/-- Substring membership of `needle` in `hay`, as a list scan. -/
def containsSubList (needle : List Char) : List Char → Bool
  | [] => needle.isPrefixOf []
  | c :: rest => needle.isPrefixOf (c :: rest) || containsSubList needle rest

/-- Models `echo "$t" | grep -q "needle"` (fixed substring search). -/
def containsSub (hay needle : String) : Bool :=
  containsSubList needle.data hay.data

-- ---------- GHCR name helpers (src/unnamed/part_001 lines 23-46) ----------

/-- Lower-case a character list (models the `/i` regex flag for ASCII). -/
def lcList (l : List Char) : List Char := l.map Char.toLower

/-- Case-insensitively drop the literal prefix `pre` (given lower-cased). -/
def dropCI (l : List Char) (pre : List Char) : Option (List Char) :=
  if lcList (l.take pre.length) = pre then some (l.drop pre.length) else none

/-- Drop one leading slash if present (models the regex part `\/?`). -/
def dropOptSlash : List Char → List Char
  | '/' :: t => t
  | l => l

/-- `parseGhcrRepoName` from the source: take the part before the first `:`,
strip a case-insensitive `ghcr.io/?versa-node/?` prefix, then strip leading
slashes. -/
def parseGhcrRepoName (full : String) : String :=
  if full = "" then ""
  else
    let noTag := full.data.takeWhile (fun c => c ≠ ':')
    let stripped :=
      match dropCI noTag "ghcr.io".data with
      | none => noTag
      | some r1 =>
        match dropCI (dropOptSlash r1) "versa-node".data with
        | none => noTag
        | some r2 => dropOptSlash r2
    ⟨stripped.dropWhile (fun c => c = '/')⟩

/-- The test `/^ghcr\.io\/versa-node\//i.test(name)` from the source. -/
def matchesVersaNode (s : String) : Bool :=
  decide (lcList (s.data.take 19) = "ghcr.io/versa-node/".data)

-- ---------- Tag ordering (fetchGhcrTagsViaSpawn, lines 211-222) ----------

/-- A collation token of the numeric-aware comparison: a maximal digit run
compared by numeric value, or a single (lower-cased) character code. -/
inductive TagTok where
  | num : Nat → TagTok
  | ch : Nat → TagTok
deriving DecidableEq, Repr

/-- Tokenizer for the numeric-aware collation key; `pending` holds the value
of the digit run currently being read. -/
def tokenizeAux : List Char → Option Nat → List TagTok
  | [], none => []
  | [], some n => [TagTok.num n]
  | c :: rest, none =>
    if c.isDigit then tokenizeAux rest (some (c.toNat - 48))
    else TagTok.ch c.toLower.toNat :: tokenizeAux rest none
  | c :: rest, some n =>
    if c.isDigit then tokenizeAux rest (some (n * 10 + (c.toNat - 48)))
    else TagTok.num n :: TagTok.ch c.toLower.toNat :: tokenizeAux rest none

/-- The collation key of a tag under
`localeCompare(·, undefined, \x7bnumeric: true, sensitivity: "base"\x7d)`:
digit runs compare numerically, other characters case-insensitively. -/
def localeNumericKey (s : String) : List TagTok :=
  tokenizeAux s.data none

/-- Strict order on collation tokens: numbers by value, characters by code,
digit runs before other characters. -/
def tokLt : TagTok → TagTok → Bool
  | TagTok.num m, TagTok.num n => m < n
  | TagTok.num _, TagTok.ch _ => true
  | TagTok.ch _, TagTok.num _ => false
  | TagTok.ch c, TagTok.ch d => c < d

/-- Lexicographic strict order on collation keys. -/
def keyLt : List TagTok → List TagTok → Bool
  | [], [] => false
  | [], _ :: _ => true
  | _ :: _, [] => false
  | a :: as, b :: bs =>
    if tokLt a b then true
    else if tokLt b a then false
    else keyLt as bs

/-- The comparator passed to `uniq.sort` in the source: `"latest"` first,
all other tags by `b.localeCompare(a, …)` (descending numeric-aware). -/
def tagComparator (a b : String) : Int :=
  if a = "latest" then -1
  else if b = "latest" then 1
  else if keyLt (localeNumericKey b) (localeNumericKey a) then -1
  else if keyLt (localeNumericKey a) (localeNumericKey b) then 1
  else 0

/-- `a` sorts no later than `b` under the source's tag comparator. -/
def tagOrder (a b : String) : Prop := tagComparator a b ≤ 0

instance : DecidableRel tagOrder :=
  fun a b => inferInstanceAs (Decidable (tagComparator a b ≤ 0))

/-- Models `Array.from(new Set(tags))`: deduplicate keeping first
occurrences in order. -/
def jsSetDedupAux (seen : List String) : List String → List String
  | [] => []
  | a :: rest =>
    if a ∈ seen then jsSetDedupAux seen rest
    else a :: jsSetDedupAux (a :: seen) rest

/-- Deduplication step of `fetchGhcrTagsViaSpawn`. -/
def jsSetDedup (l : List String) : List String := jsSetDedupAux [] l

/-- The dedup-then-sort step of `fetchGhcrTagsViaSpawn` (a stable sort by
the source's comparator, as JavaScript `Array.prototype.sort`). -/
def sortTags (ts : List String) : List String :=
  List.insertionSort tagOrder (jsSetDedup ts)

-- ---------- order lemmas for the tag comparator ----------

theorem tokLt_irrefl (a : TagTok) : tokLt a a = false := by
  cases a <;> simp [tokLt]

theorem tokLt_trans {a b c : TagTok} (h1 : tokLt a b = true) (h2 : tokLt b c = true) :
    tokLt a c = true := by
  cases a <;> cases b <;> cases c <;> simp_all [tokLt] <;> omega

theorem tokLt_trichotomy (a b : TagTok) :
    tokLt a b = true ∨ a = b ∨ tokLt b a = true := by
  cases a <;> cases b <;> simp [tokLt] <;> omega

theorem keyLt_irrefl (l : List TagTok) : keyLt l l = false := by
  induction l with
  | nil => rfl
  | cons a as ih => simp [keyLt, tokLt_irrefl, ih]

theorem keyLt_trans : ∀ {x y z : List TagTok},
    keyLt x y = true → keyLt y z = true → keyLt x z = true
  | [], [], _, h1, _ => by simp [keyLt] at h1
  | [], _ :: _, [], _, h2 => by simp [keyLt] at h2
  | [], _ :: _, _ :: _, _, _ => by simp [keyLt]
  | _ :: _, [], _, h1, _ => by simp [keyLt] at h1
  | _ :: _, _ :: _, [], _, h2 => by simp [keyLt] at h2
  | a :: as, b :: bs, c :: cs, h1, h2 => by
    by_cases hab : tokLt a b = true
    · by_cases hbc : tokLt b c = true
      · simp [keyLt, tokLt_trans hab hbc]
      · have h2' := h2
        simp only [keyLt] at h2'
        rw [if_neg hbc] at h2'
        by_cases hcb : tokLt c b = true
        · rw [if_pos hcb] at h2'; exact absurd h2' (by simp)
        · rcases tokLt_trichotomy b c with h | h | h
          · exact absurd h hbc
          · subst h; simp [keyLt, hab]
          · exact absurd h hcb
    · have h1' := h1
      simp only [keyLt] at h1'
      rw [if_neg hab] at h1'
      by_cases hba : tokLt b a = true
      · rw [if_pos hba] at h1'; exact absurd h1' (by simp)
      · rw [if_neg hba] at h1'
        rcases tokLt_trichotomy a b with h | h | h
        · exact absurd h hab
        · subst h
          have h2' := h2
          simp only [keyLt] at h2'
          show keyLt (a :: as) (c :: cs) = true
          simp only [keyLt]
          by_cases hac : tokLt a c = true
          · rw [if_pos hac]
          · rw [if_neg hac] at h2' ⊢
            by_cases hca : tokLt c a = true
            · rw [if_pos hca] at h2'; exact absurd h2' (by simp)
            · rw [if_neg hca] at h2' ⊢
              exact keyLt_trans h1' h2'
        · exact absurd h hba

theorem keyLt_trichotomy : ∀ (x y : List TagTok),
    keyLt x y = true ∨ x = y ∨ keyLt y x = true
  | [], [] => Or.inr (Or.inl rfl)
  | [], _ :: _ => Or.inl (by simp [keyLt])
  | _ :: _, [] => Or.inr (Or.inr (by simp [keyLt]))
  | a :: as, b :: bs => by
    rcases tokLt_trichotomy a b with h | h | h
    · exact Or.inl (by simp [keyLt, h])
    · subst h
      rcases keyLt_trichotomy as bs with h' | h' | h'
      · exact Or.inl (by simp [keyLt, tokLt_irrefl, h'])
      · exact Or.inr (Or.inl (by rw [h']))
      · exact Or.inr (Or.inr (by simp [keyLt, tokLt_irrefl, h']))
    · exact Or.inr (Or.inr (by simp [keyLt, h]))

theorem keyLt_asymm {x y : List TagTok} (h : keyLt x y = true) : keyLt y x = false := by
  by_contra hc
  have h' : keyLt y x = true := by
    cases hyx : keyLt y x
    · exact absurd hyx hc
    · rfl
  have := keyLt_trans h h'
  rw [keyLt_irrefl] at this
  exact Bool.false_ne_true this

theorem tagOrder_latest_left' (b : String) : tagOrder "latest" b := by
  unfold tagOrder tagComparator
  simp

theorem tagOrder_total : ∀ a b : String, tagOrder a b ∨ tagOrder b a := by
  intro a b
  by_cases ha : a = "latest"
  · left; subst ha; exact tagOrder_latest_left' b
  · by_cases hb : b = "latest"
    · right; subst hb; exact tagOrder_latest_left' a
    · by_cases h1 : keyLt (localeNumericKey b) (localeNumericKey a) = true
      · left
        unfold tagOrder tagComparator
        rw [if_neg ha, if_neg hb, if_pos h1]
        omega
      · right
        unfold tagOrder tagComparator
        rw [if_neg hb, if_neg ha]
        by_cases h2 : keyLt (localeNumericKey a) (localeNumericKey b) = true
        · rw [if_pos h2]; omega
        · rw [if_neg h2, if_neg h1]

theorem tagOrder_trans : ∀ {a b c : String}, tagOrder a b → tagOrder b c → tagOrder a c := by
  intro a b c h1 h2
  by_cases ha : a = "latest"
  · subst ha; exact tagOrder_latest_left' c
  · by_cases hb : b = "latest"
    · rw [hb] at h1
      exfalso
      unfold tagOrder tagComparator at h1
      rw [if_neg ha, if_pos rfl] at h1
      omega
    · by_cases hc : c = "latest"
      · rw [hc] at h2
        exfalso
        unfold tagOrder tagComparator at h2
        rw [if_neg hb, if_pos rfl] at h2
        omega
      · unfold tagOrder tagComparator at h1 h2 ⊢
        rw [if_neg ha, if_neg hb] at h1
        rw [if_neg hb, if_neg hc] at h2
        rw [if_neg ha, if_neg hc]
        by_cases hca : keyLt (localeNumericKey c) (localeNumericKey a) = true
        · rw [if_pos hca]; omega
        · rw [if_neg hca]
          by_cases hac : keyLt (localeNumericKey a) (localeNumericKey c) = true
          · exfalso
            by_cases hba : keyLt (localeNumericKey b) (localeNumericKey a) = true
            · by_cases hcb : keyLt (localeNumericKey c) (localeNumericKey b) = true
              · exact hca (keyLt_trans hcb hba)
              · rw [if_neg hcb] at h2
                by_cases hbc : keyLt (localeNumericKey b) (localeNumericKey c) = true
                · rw [if_pos hbc] at h2; omega
                · rcases keyLt_trichotomy (localeNumericKey b) (localeNumericKey c) with h | h | h
                  · exact absurd h hbc
                  · rw [h] at hba; exact hca hba
                  · exact absurd h hcb
            · rw [if_neg hba] at h1
              by_cases hab : keyLt (localeNumericKey a) (localeNumericKey b) = true
              · rw [if_pos hab] at h1; omega
              · rcases keyLt_trichotomy (localeNumericKey a) (localeNumericKey b) with h | h | h
                · exact absurd h hab
                · rw [← h] at h2
                  rw [if_neg hca, if_pos hac] at h2
                  omega
                · exact absurd h hba
          · rw [if_neg hac]

instance : IsTotal String tagOrder := ⟨tagOrder_total⟩

instance : IsTrans String tagOrder := ⟨fun _ _ _ => tagOrder_trans⟩

theorem mem_jsSetDedupAux {a : String} :
    ∀ (l seen : List String), a ∈ jsSetDedupAux seen l ↔ a ∈ l ∧ a ∉ seen := by
  intro l
  induction l with
  | nil => intro seen; simp [jsSetDedupAux]
  | cons x rest ih =>
    intro seen
    by_cases hx : x ∈ seen
    · simp only [jsSetDedupAux, if_pos hx, ih]
      constructor
      · rintro ⟨hm, hs⟩
        exact ⟨List.mem_cons_of_mem _ hm, hs⟩
      · rintro ⟨hm, hs⟩
        rcases List.mem_cons.mp hm with h | h
        · subst h; exact absurd hx hs
        · exact ⟨h, hs⟩
    · simp only [jsSetDedupAux, if_neg hx]
      constructor
      · intro hm
        rcases List.mem_cons.mp hm with h | h
        · subst h; exact ⟨List.mem_cons_self _ _, hx⟩
        · rcases (ih (x :: seen)).mp h with ⟨hm', hs'⟩
          refine ⟨List.mem_cons_of_mem _ hm', fun hc => hs' (List.mem_cons_of_mem _ hc)⟩
      · rintro ⟨hm, hs⟩
        rcases List.mem_cons.mp hm with h | h
        · subst h; exact List.mem_cons_self _ _
        · by_cases hxa : a = x
          · subst hxa; exact List.mem_cons_self _ _
          · exact List.mem_cons_of_mem _ ((ih (x :: seen)).mpr
              ⟨h, fun hc => by
                rcases List.mem_cons.mp hc with h' | h'
                · exact hxa h'
                · exact hs h'⟩)

theorem mem_jsSetDedup {a : String} {l : List String} :
    a ∈ jsSetDedup l ↔ a ∈ l := by
  unfold jsSetDedup
  rw [mem_jsSetDedupAux]
  simp

theorem nodup_jsSetDedupAux :
    ∀ (l seen : List String), (jsSetDedupAux seen l).Nodup := by
  intro l
  induction l with
  | nil => intro seen; simp [jsSetDedupAux]
  | cons x rest ih =>
    intro seen
    by_cases hx : x ∈ seen
    · simpa [jsSetDedupAux, if_pos hx] using ih seen
    · simp only [jsSetDedupAux, if_neg hx]
      refine List.nodup_cons.mpr ⟨?_, ih (x :: seen)⟩
      intro hc
      exact ((mem_jsSetDedupAux rest (x :: seen)).mp hc).2 (List.mem_cons_self _ _)

theorem nodup_jsSetDedup (l : List String) : (jsSetDedup l).Nodup :=
  nodup_jsSetDedupAux l []

theorem tagOrder_latest_left (b : String) : tagOrder "latest" b := by
  unfold tagOrder tagComparator
  simp

theorem tagOrder_latest_right {a : String} (ha : a ≠ "latest") :
    ¬ tagOrder a "latest" := by
  unfold tagOrder tagComparator
  simp [ha]

theorem sorted_head_latest {l : List String} (hs : List.Sorted tagOrder l)
    (hm : "latest" ∈ l) : l.head? = some "latest" := by
  cases l with
  | nil => simp at hm
  | cons h t =>
    by_cases hh : h = "latest"
    · simp [hh]
    · exfalso
      rcases List.mem_cons.mp hm with hc | hc
      · exact hh hc.symm
      · exact tagOrder_latest_right hh ((List.sorted_cons.mp hs).1 _ hc)

-- ---------- OCI manifest / config model (description script, lines 241-349) ----------

/-- Platform record of an index entry (`e.get("platform")`). -/
structure Platform where
  os : String
  architecture : String
deriving DecidableEq, Repr

/-- One entry of a manifest index (`manifests` array).  A missing `digest`
is modelled by `""`, as produced by `(chosen or \x7b\x7d).get("digest","") or ""`. -/
structure ManifestDescriptor where
  digest : String
  platform : Option Platform
deriving DecidableEq, Repr

/-- A parsed manifest document, single-platform or index, with the Python
defaulting applied: `mediaType` defaults to `""`, the config digest to `""`
(`(m.get("config") or \x7b\x7d).get("digest","")`), `manifests` to `[]`. -/
structure ManifestDoc where
  mediaType : String
  configDigest : String
  manifests : List ManifestDescriptor
deriving DecidableEq, Repr

/-- A parsed image configuration blob: its label map
(`(cfg.get("config") or \x7b\x7d).get("Labels") or \x7b\x7d`). -/
structure ConfigDoc where
  labels : List (String × String)
deriving DecidableEq, Repr

/-- `cfg_digest_from_manifest_file`: the embedded config digest. -/
def cfg_digest_from_manifest (m : ManifestDoc) : String := m.configDigest

/-- Predicate of an index entry preferred by
`select_manifest_digest_from_index_file`:
`p.get("os")=="linux" and p.get("architecture")=="arm64"`. -/
def isPreferredPlatform (e : ManifestDescriptor) : Bool :=
  match e.platform with
  | some p => p.os = "linux" && p.architecture = "arm64"
  | none => false

/-- `select_manifest_digest_from_index_file`: first entry whose platform is
linux/arm64, else the first listed entry, else `""`. -/
def select_manifest_digest_from_index (m : ManifestDoc) : String :=
  match m.manifests.find? isPreferredPlatform with
  | some e => e.digest
  | none =>
    match m.manifests with
    | [] => ""
    | e :: _ => e.digest

/-- The `grep -qE "image\.manifest|manifest\.v2"` branch test on the
declared media type. -/
def mediaTypeIsSingleManifest (t : String) : Bool :=
  containsSub t "image.manifest" || containsSub t "manifest.v2"

/-- The fixed description label key. -/
def descriptionLabelKey : String := "org.opencontainers.image.description"

/-- `desc_from_config_file`: the trimmed value of the description label,
`""` when the key is absent. -/
def desc_from_config (cfg : ConfigDoc) : String :=
  jsTrim ((cfg.labels.lookup descriptionLabelKey).getD "")

/-- Environment of the description script: the registry's answers. A `none`
manifest or blob models an unfetchable or non-JSON response
(`json_is_valid_file` failing); `spawnFails` models the whole
`cockpit.spawn` rejecting. -/
structure DescEnv where
  spawnFails : Bool
  manifests : String → Option ManifestDoc
  blobs : String → Option ConfigDoc

/-- The config-blob step of the script (fetch blob by digest, parse, read
label): the Config Label Extractor. -/
def extractDescription (env : DescEnv) (dig : String) : String :=
  match env.blobs dig with
  | none => ""
  | some cfg => desc_from_config cfg

/-- The last part of the script once a config digest has been determined:
empty digest yields `""`, otherwise fetch the blob and extract the label. -/
def descFromConfigDigest (env : DescEnv) (dig : String) : String :=
  if dig = "" then "" else extractDescription env dig

/-- The description bash script end to end: fetch the manifest for `tag`,
branch on media type, resolve the config digest (through the selected index
entry if needed) and extract the description label. -/
def descScript (env : DescEnv) (tag : String) : String :=
  match env.manifests tag with
  | none => ""
  | some m =>
    if mediaTypeIsSingleManifest m.mediaType then
      descFromConfigDigest env (cfg_digest_from_manifest m)
    else
      let sel := select_manifest_digest_from_index m
      if sel = "" then ""
      else
        match env.manifests sel with
        | none => ""
        | some sub => descFromConfigDigest env (cfg_digest_from_manifest sub)

-- ---------- In-memory caches (lines 48-58) ----------

/-- A package list row (`{name, description}`). -/
structure PackageEntry where
  name : String
  description : String
deriving DecidableEq, Repr

/-- The four module-level caches: token and tag list by repo, description
by `name@tag` key, and the org-listing singleton with its timestamp. -/
structure Caches where
  tokenCache : List (String × String)
  tagsCache : List (String × List String)
  descCache : List (String × String)
  orgList : Option (List PackageEntry)
  orgAt : Nat
deriving Repr

/-- The empty cache state at session start. -/
def emptyCaches : Caches := ⟨[], [], [], none, 0⟩

/-- `Map.set`: afterwards `k` maps to `v`, other keys unchanged. -/
def mapSet (m : List (String × α)) (k : String) (v : α) : List (String × α) :=
  (k, v) :: m.filter (fun p => p.1 ≠ k)

/-- `Map.delete`: afterwards `k` is absent, other keys unchanged. -/
def mapDelete (m : List (String × α)) (k : String) : List (String × α) :=
  m.filter (fun p => p.1 ≠ k)

-- ---------- Token Broker (ghcrGetRegistryTokenViaSpawn, lines 116-186) ----------

/-- One strategy attempt of the token script. -/
inductive TokenAttempt where
  | anon : TokenAttempt
  | basic : String → TokenAttempt
deriving DecidableEq, Repr

/-- Environment of the token script.  `anon`/`basic` give each curl's
outcome (`none` = non-zero exit); `tokenFile`/`userFile` are the stored
credential files after `tr -d`; `parse` is `JSON.parse(out).token`
(`Except.error` = parse throws, inner `Option` = a missing field);
`spawnFails` models the whole `cockpit.spawn` rejecting. -/
structure TokenEnv where
  spawnFails : Bool
  anon : Option String
  basic : String → Option String
  tokenFile : Option String
  userFile : Option String
  parse : String → Except Unit (Option String)

/-- Did `try_anon` succeed with non-empty output? -/
def anonOk (env : TokenEnv) : Bool :=
  match env.anon with
  | some r => r ≠ ""
  | none => false

/-- Did `try_basic` with identity `u` succeed with non-empty output? -/
def basicOk (env : TokenEnv) (u : String) : Bool :=
  match env.basic u with
  | some r => r ≠ ""
  | none => false

/-- The username configured in the user file (empty when absent). -/
def configuredUser (env : TokenEnv) : String := env.userFile.getD ""

/-- The identities the script exchanges the PAT with, in order: the
configured username when present, then `oauth2`, `token`, and empty. -/
def identityList (env : TokenEnv) : List String :=
  (if configuredUser env ≠ "" then [configuredUser env] else []) ++ ["oauth2", "token", ""]

/-- Try `try_basic` for each identity in order until one succeeds,
recording the attempts made. -/
def runIdentities (env : TokenEnv) : List String → String × List TokenAttempt
  | [] => ("", [])
  | u :: us =>
    match env.basic u with
    | some r =>
      if r ≠ "" then (r, [TokenAttempt.basic u])
      else
        let rest := runIdentities env us
        (rest.1, TokenAttempt.basic u :: rest.2)
    | none =>
      let rest := runIdentities env us
      (rest.1, TokenAttempt.basic u :: rest.2)

/-- The credential part of the token script (after a failed anonymous
attempt): no readable or empty PAT file yields `""`, otherwise the
identity exchanges are tried in order. -/
def tokenScriptCreds (env : TokenEnv) : String × List TokenAttempt :=
  match env.tokenFile with
  | none => ("", [])
  | some pat =>
    if pat = "" then ("", [])
    else runIdentities env (identityList env)

/-- The token bash script end to end: anonymous first, then the credential
exchanges; the attempt list records the strategies tried in order. -/
def tokenScript (env : TokenEnv) : String × List TokenAttempt :=
  match env.anon with
  | some r =>
    if r ≠ "" then (r, [TokenAttempt.anon])
    else
      let rest := tokenScriptCreds env
      (rest.1, TokenAttempt.anon :: rest.2)
  | none =>
    let rest := tokenScriptCreds env
    (rest.1, TokenAttempt.anon :: rest.2)

/-- `ghcrGetRegistryTokenViaSpawn`: cache check, spawn of the script,
parse of its output, with every failure caught and cached as `""`.  The
`Nat` component counts the spawns (underlying network calls) issued. -/
def ghcrGetRegistryToken (env : TokenEnv) (repo : String) (bypassCache : Bool)
    (st : Caches) : String × Caches × Nat :=
  if ¬bypassCache ∧ (st.tokenCache.lookup repo).isSome then
    ((st.tokenCache.lookup repo).getD "", st, 0)
  else if env.spawnFails then
    ("", { st with tokenCache := mapSet st.tokenCache repo "" }, 1)
  else
    let out := (tokenScript env).1
    if out = "" then
      ("", { st with tokenCache := mapSet st.tokenCache repo "" }, 1)
    else
      match env.parse out with
      | Except.error _ =>
        ("", { st with tokenCache := mapSet st.tokenCache repo "" }, 1)
      | Except.ok t =>
        let token := jsTrim (t.getD "")
        (token, { st with tokenCache := mapSet st.tokenCache repo token }, 1)

-- ---------- Tag Lister (fetchGhcrTagsViaSpawn, lines 189-227) ----------

/-- Environment of the tag-listing call: the curl output (`none` = the
spawn rejects) and `JSON.parse` of it (inner `Option` = whether `tags`
is an array). -/
structure TagsEnv where
  spawnOut : Option String
  parse : String → Except Unit (Option (List String))

/-- `fetchGhcrTagsViaSpawn`: resolve the repo name, consult the cache,
acquire a token, spawn the curl, parse, dedup and sort; any failure is
caught and yields `[]`. -/
def fetchGhcrTags (envTg : TagsEnv) (envT : TokenEnv) (fullName : String)
    (bypassCache : Bool) (st : Caches) : List String × Caches :=
  let repo := parseGhcrRepoName fullName
  if repo = "" then ([], st)
  else if ¬bypassCache ∧ (st.tagsCache.lookup repo).isSome then
    ((st.tagsCache.lookup repo).getD [], st)
  else
    let st1 := (ghcrGetRegistryToken envT repo bypassCache st).2.1
    match envTg.spawnOut with
    | none => ([], st1)
    | some out =>
      match (if out = "" then Except.ok (some []) else envTg.parse out) with
      | Except.error _ => ([], st1)
      | Except.ok tagsOpt =>
        let uniq := sortTags (tagsOpt.getD [])
        (uniq, { st1 with tagsCache := mapSet st1.tagsCache repo uniq })

-- ---------- Description resolution (fetchGhcrOciDescriptionViaSpawn) ----------

/-- The character class `[A-Za-z0-9._-]` of the tag validation regex. -/
def isValidTagChar (c : Char) : Bool :=
  c.isAlphanum || c = '.' || c = '_' || c = '-'

/-- The regex test `/^[A-Za-z0-9._-]+$/.test(tag)`. -/
def validTag (t : String) : Bool :=
  decide (t ≠ "") && t.data.all isValidTagChar

/-- The tag sanitization of `fetchGhcrOciDescriptionViaSpawn`:
`(tagIn || "latest").trim()`, replaced by `"latest"` when the result
fails the validation regex. -/
def sanitizeTag (tagIn : String) : String :=
  let t := jsTrim (if tagIn = "" then "latest" else tagIn)
  if validTag t then t else "latest"

/-- `fetchGhcrOciDescriptionViaSpawn`: resolve repo and sanitized tag,
consult the description cache under `fullName@tag`, acquire a token, run
the description script and cache its trimmed output; a rejected spawn is
caught and cached as `""`. -/
def fetchGhcrOciDescription (envT : TokenEnv) (envD : DescEnv)
    (fullName tagIn : String) (bypassCache : Bool) (st : Caches) :
    String × Caches :=
  let repo := parseGhcrRepoName fullName
  let tag := sanitizeTag tagIn
  if repo = "" then ("", st)
  else
    let cacheKey := fullName ++ "@" ++ tag
    if ¬bypassCache ∧ (st.descCache.lookup cacheKey).isSome then
      ((st.descCache.lookup cacheKey).getD "", st)
    else
      let st1 := (ghcrGetRegistryToken envT repo bypassCache st).2.1
      if envD.spawnFails then
        ("", { st1 with descCache := mapSet st1.descCache cacheKey "" })
      else
        let desc := jsTrim (descScript envD tag)
        (desc, { st1 with descCache := mapSet st1.descCache cacheKey desc })

-- ---------- Package Discovery (fetchGhcrOrgPackagesViaSpawn, lines 62-113) ----------

/-- One package object of the GitHub Packages response. -/
structure OrgPkg where
  name : String
  description : String
deriving DecidableEq, Repr

/-- Environment of the org-listing call: the script output (`none` = the
spawn rejects) and `JSON.parse` of it. -/
structure OrgEnv where
  spawnOut : Option String
  parse : String → Except Unit (List OrgPkg)

/-- `fetchGhcrOrgPackagesViaSpawn`: serve a fresh cached listing, else
spawn, parse, namespace the names, trim the side-channel descriptions and
cache the result; any failure is caught and yields `[]`. -/
def fetchGhcrOrgPackages (env : OrgEnv) (now : Nat) (bypassCache : Bool)
    (st : Caches) : List PackageEntry × Caches :=
  if ¬bypassCache ∧ st.orgList.isSome ∧ st.orgAt ≠ 0 ∧ now - st.orgAt < 10 * 60000 then
    (st.orgList.getD [], st)
  else
    match env.spawnOut with
    | none => ([], st)
    | some out =>
      match (if out = "" then Except.ok [] else env.parse out) with
      | Except.error _ => ([], st)
      | Except.ok pkgs =>
        let normalized := pkgs.map (fun p =>
          { name := "ghcr.io/versa-node/" ++ p.name,
            description := jsTrim p.description : PackageEntry })
        (normalized, { st with orgList := some normalized, orgAt := now })

-- ---------- helper lemmas on find? ----------

theorem find?_append_first {α : Type} (p : α → Bool) :
    ∀ (pre : List α) (e : α) (post : List α),
      p e = true → (∀ x ∈ pre, p x = false) →
      (pre ++ e :: post).find? p = some e := by
  intro pre
  induction pre with
  | nil =>
    intro e post he _
    simp [List.find?, he]
  | cons x rest ih =>
    intro e post he hpre
    have hx : p x = false := hpre x (List.mem_cons_self _ _)
    simp only [List.cons_append, List.find?, hx]
    exact ih e post he (fun y hy => hpre y (List.mem_cons_of_mem _ hy))

theorem find?_eq_none_of_all_false {α : Type} (p : α → Bool) :
    ∀ (l : List α), (∀ x ∈ l, p x = false) → l.find? p = none := by
  intro l
  induction l with
  | nil => intro _; rfl
  | cons x rest ih =>
    intro h
    have hx : p x = false := h x (List.mem_cons_self _ _)
    simp only [List.find?, hx]
    exact ih (fun y hy => h y (List.mem_cons_of_mem _ hy))

-- ---------- C1 ----------

/-- The §8 scenario index: entries `linux/arm` then `linux/amd64`. -/
def c1Index : ManifestDoc :=
  { mediaType := "application/vnd.oci.image.index.v1+json",
    configDigest := "",
    manifests :=
      [{ digest := "sha256:armdigest", platform := some { os := "linux", architecture := "arm" } },
       { digest := "sha256:amddigest", platform := some { os := "linux", architecture := "amd64" } }] }

/-- C1 counterexample: on the §8 index `[linux/arm, linux/amd64]` the
resolver selects the FIRST entry's digest, not the second's — the code's
fixed preferred platform is linux/arm64, so neither entry matches and the
first-entry fallback applies. -/
theorem c1_counterexample :
    select_manifest_digest_from_index c1Index = "sha256:armdigest" ∧
    "sha256:armdigest" ≠ "sha256:amddigest" := by
  constructor
  · rfl
  · decide

/-- C1 (amended): the resolver selects the first descriptor whose platform
matches the fixed preferred pair (os = linux, architecture = arm64); if no
entry matches it selects the first listed entry; an index with zero
entries yields the empty digest.  In the §8 scenario neither entry matches
arm64, so the first entry (`linux/arm`) is selected. -/
theorem c1_manifest_index_selection (m : ManifestDoc) :
    (m.manifests = [] → select_manifest_digest_from_index m = "") ∧
    (∀ pre e post, m.manifests = pre ++ e :: post →
      isPreferredPlatform e = true → (∀ x ∈ pre, isPreferredPlatform x = false) →
      select_manifest_digest_from_index m = e.digest) ∧
    ((∀ x ∈ m.manifests, isPreferredPlatform x = false) →
      ∀ h t, m.manifests = h :: t →
      select_manifest_digest_from_index m = h.digest) := by
  refine ⟨?_, ?_, ?_⟩
  · intro h
    unfold select_manifest_digest_from_index
    rw [h]
    rfl
  · intro pre e post hsplit he hpre
    unfold select_manifest_digest_from_index
    rw [hsplit, find?_append_first isPreferredPlatform pre e post he hpre]
  · intro hall h t hsplit
    unfold select_manifest_digest_from_index
    rw [hsplit, find?_eq_none_of_all_false isPreferredPlatform (h :: t)
      (fun x hx => hall x (hsplit ▸ hx))]

/-- Witness for C1: instantiate the amended theorem on the §8 index, whose
entries all fail the arm64 preference, selecting the first entry. -/
theorem c1_manifest_index_selection_witness :
    select_manifest_digest_from_index c1Index = "sha256:armdigest" :=
  (c1_manifest_index_selection c1Index).2.2 (by decide)
    { digest := "sha256:armdigest", platform := some { os := "linux", architecture := "arm" } }
    [{ digest := "sha256:amddigest", platform := some { os := "linux", architecture := "amd64" } }]
    rfl

-- ---------- C3 ----------

/-- C3: the Config Label Extractor returns the trimmed value of the fixed
description label from the config blob, and `""` when the blob is
unfetchable/unparsable or the key absent; the full chain routes a resolved
non-empty config digest through exactly this extraction. -/
theorem c3_extractDescription_label (env : DescEnv) (dig : String)
    (cfg : ConfigDoc) (v : String) :
    (env.blobs dig = none → extractDescription env dig = "") ∧
    (env.blobs dig = some cfg →
      cfg.labels.lookup descriptionLabelKey = none →
      extractDescription env dig = "") ∧
    (env.blobs dig = some cfg →
      cfg.labels.lookup descriptionLabelKey = some v →
      extractDescription env dig = jsTrim v) ∧
    (∀ tag m, env.manifests tag = some m →
      mediaTypeIsSingleManifest m.mediaType = true →
      cfg_digest_from_manifest m = dig → dig ≠ "" →
      descScript env tag = extractDescription env dig) := by
  refine ⟨?_, ?_, ?_, ?_⟩
  · intro h
    unfold extractDescription
    rw [h]
  · intro hb hl
    unfold extractDescription
    rw [hb]
    show jsTrim ((cfg.labels.lookup descriptionLabelKey).getD "") = ""
    rw [hl]
    rfl
  · intro hb hl
    unfold extractDescription
    rw [hb]
    show jsTrim ((cfg.labels.lookup descriptionLabelKey).getD "") = jsTrim v
    rw [hl]
    rfl
  · intro tag m hm htype hdig hne
    unfold descScript
    rw [hm]
    simp only [htype, if_pos]
    unfold descFromConfigDigest
    rw [hdig, if_neg hne]

/-- Concrete environment for the C3 witness: a single-platform manifest at
tag `latest` whose config blob carries the description label. -/
def c3Env : DescEnv :=
  { spawnFails := false,
    manifests := fun r =>
      if r = "latest" then
        some { mediaType := "application/vnd.oci.image.manifest.v1+json",
               configDigest := "sha256:cfg", manifests := [] }
      else none,
    blobs := fun d =>
      if d = "sha256:cfg" then
        some { labels := [("org.opencontainers.image.description", "Acme web server")] }
      else none }

/-- Witness for C3: on `c3Env` the full chain returns the label value. -/
theorem c3_extractDescription_label_witness :
    extractDescription c3Env "sha256:cfg" = "Acme web server" ∧
    descScript c3Env "latest" = "Acme web server" := by
  have h := c3_extractDescription_label c3Env "sha256:cfg"
    { labels := [("org.opencontainers.image.description", "Acme web server")] }
    "Acme web server"
  have hval : extractDescription c3Env "sha256:cfg" = jsTrim "Acme web server" :=
    h.2.2.1 (by decide) (by decide)
  have hchain : descScript c3Env "latest" = extractDescription c3Env "sha256:cfg" :=
    h.2.2.2 "latest"
      { mediaType := "application/vnd.oci.image.manifest.v1+json",
        configDigest := "sha256:cfg", manifests := [] }
      (by decide) (by decide) (by decide) (by decide)
  refine ⟨?_, ?_⟩
  · rw [hval]; decide
  · rw [hchain, hval]; decide

-- ---------- C2 ----------

/-- C2: `listTags` deduplicates the registry's tag collection and sorts it
so that `"latest"` is first whenever present and all other tags appear in
descending numeric-aware lexicographic order; the set `{"2","10","latest"}`
sorts to `["latest","10","2"]`, and a successful fetch returns exactly this
dedup-and-sort of the parsed tag array. -/
theorem c2_listTags_ordering (ts : List String) :
    (sortTags ts).Nodup ∧
    (∀ a, a ∈ sortTags ts ↔ a ∈ ts) ∧
    ("latest" ∈ ts → (sortTags ts).head? = some "latest") ∧
    (sortTags ts).Pairwise (fun a b => a = "latest" ∨ (b ≠ "latest" ∧
      keyLt (localeNumericKey a) (localeNumericKey b) = false)) ∧
    sortTags ["2", "10", "latest"] = ["latest", "10", "2"] ∧
    (∀ (envTg : TagsEnv) (envT : TokenEnv) (fullName : String) (st : Caches)
       (out : String) (tags : List String),
      parseGhcrRepoName fullName ≠ "" → envTg.spawnOut = some out → out ≠ "" →
      envTg.parse out = Except.ok (some tags) →
      (fetchGhcrTags envTg envT fullName true st).1 = sortTags tags) := by
  have perm : List.Perm (sortTags ts) (jsSetDedup ts) :=
    List.perm_insertionSort tagOrder (jsSetDedup ts)
  have sorted : List.Sorted tagOrder (sortTags ts) :=
    List.sorted_insertionSort tagOrder (jsSetDedup ts)
  refine ⟨?_, ?_, ?_, ?_, ?_, ?_⟩
  · exact perm.nodup_iff.mpr (nodup_jsSetDedup ts)
  · intro a
    exact perm.mem_iff.trans mem_jsSetDedup
  · intro h
    exact sorted_head_latest sorted (perm.mem_iff.mpr (mem_jsSetDedup.mpr h))
  · refine sorted.imp ?_
    intro a b hab
    by_cases ha : a = "latest"
    · exact Or.inl ha
    · right
      unfold tagOrder tagComparator at hab
      rw [if_neg ha] at hab
      by_cases hb : b = "latest"
      · rw [if_pos hb] at hab; omega
      · rw [if_neg hb] at hab
        refine ⟨hb, ?_⟩
        by_cases h1 : keyLt (localeNumericKey b) (localeNumericKey a) = true
        · exact keyLt_asymm h1
        · rw [if_neg h1] at hab
          by_cases h2 : keyLt (localeNumericKey a) (localeNumericKey b) = true
          · rw [if_pos h2] at hab; omega
          · cases hk : keyLt (localeNumericKey a) (localeNumericKey b)
            · rfl
            · exact absurd hk h2
  · decide
  · intro envTg envT fullName st out tags hr hout hne hparse
    unfold fetchGhcrTags
    rw [if_neg hr]
    simp only [Bool.not_true, false_and, if_false, hout, if_neg hne, hparse]
    rfl

/-- Witness for C2: on the tag set of the spec's example, `"latest"` is the
head of the sorted output. -/
theorem c2_listTags_ordering_witness :
    (sortTags ["2", "10", "latest"]).head? = some "latest" :=
  (c2_listTags_ordering ["2", "10", "latest"]).2.2.1 (by decide)

-- ---------- token broker helper lemmas ----------

theorem lookup_mapSet_self {α : Type} (m : List (String × α)) (k : String) (v : α) :
    (mapSet m k v).lookup k = some v := by
  simp [mapSet, List.lookup]

theorem tokenScript_head (env : TokenEnv) :
    (tokenScript env).2.head? = some TokenAttempt.anon := by
  unfold tokenScript
  cases env.anon with
  | none => rfl
  | some r =>
    dsimp only
    by_cases hr : r ≠ ""
    · rw [if_pos hr]; rfl
    · rw [if_neg hr]; rfl

theorem tokenScript_of_anon_fail (env : TokenEnv) (h : anonOk env = false) :
    tokenScript env =
      ((tokenScriptCreds env).1, TokenAttempt.anon :: (tokenScriptCreds env).2) := by
  unfold tokenScript
  unfold anonOk at h
  cases ha : env.anon with
  | none => rfl
  | some r =>
    rw [ha] at h
    dsimp only
    rw [if_neg (of_decide_eq_false h)]

theorem tokenScriptCreds_none (env : TokenEnv) (h : env.tokenFile = none) :
    tokenScriptCreds env = ("", []) := by
  unfold tokenScriptCreds
  rw [h]

theorem tokenScriptCreds_emptyPat (env : TokenEnv) (h : env.tokenFile = some "") :
    tokenScriptCreds env = ("", []) := by
  unfold tokenScriptCreds
  rw [h]
  dsimp only
  rw [if_pos rfl]

theorem tokenScriptCreds_pat (env : TokenEnv) (pat : String)
    (h : env.tokenFile = some pat) (hne : pat ≠ "") :
    tokenScriptCreds env = runIdentities env (identityList env) := by
  unfold tokenScriptCreds
  rw [h]
  dsimp only
  rw [if_neg hne]

theorem runIdentities_all_fail (env : TokenEnv) :
    ∀ (us : List String), (∀ u ∈ us, basicOk env u = false) →
      runIdentities env us = ("", us.map TokenAttempt.basic) := by
  intro us
  induction us with
  | nil => intro _; rfl
  | cons u rest ih =>
    intro h
    have hu : basicOk env u = false := h u (List.mem_cons_self _ _)
    have hrest := ih (fun v hv => h v (List.mem_cons_of_mem _ hv))
    unfold runIdentities
    unfold basicOk at hu
    cases hb : env.basic u with
    | none =>
      dsimp only
      rw [hrest]
      rfl
    | some r =>
      rw [hb] at hu
      dsimp only
      rw [if_neg (of_decide_eq_false hu), hrest]
      rfl

theorem runIdentities_first_success (env : TokenEnv) :
    ∀ (pre : List String) (u : String) (post : List String) (r : String),
      (∀ v ∈ pre, basicOk env v = false) → env.basic u = some r → r ≠ "" →
      runIdentities env (pre ++ u :: post) =
        (r, pre.map TokenAttempt.basic ++ [TokenAttempt.basic u]) := by
  intro pre
  induction pre with
  | nil =>
    intro u post r _ hb hr
    rw [List.nil_append]
    unfold runIdentities
    rw [hb]
    dsimp only
    rw [if_pos hr]
    rfl
  | cons v rest ih =>
    intro u post r hpre hb hr
    have hv : basicOk env v = false := hpre v (List.mem_cons_self _ _)
    have hrest := ih u post r (fun w hw => hpre w (List.mem_cons_of_mem _ hw)) hb hr
    rw [List.cons_append]
    unfold runIdentities
    unfold basicOk at hv
    cases hbv : env.basic v with
    | none =>
      dsimp only
      rw [hrest]
      rfl
    | some s =>
      rw [hbv] at hv
      dsimp only
      rw [if_neg (of_decide_eq_false hv), hrest]
      rfl

theorem ghcrGetRegistryToken_empty_out (env : TokenEnv) (repo : String)
    (st : Caches) (h : (tokenScript env).1 = "") :
    ghcrGetRegistryToken env repo true st =
      ("", { st with tokenCache := mapSet st.tokenCache repo "" }, 1) := by
  unfold ghcrGetRegistryToken
  rw [if_neg (by simp)]
  by_cases hs : env.spawnFails = true
  · rw [if_pos hs]
  · rw [if_neg hs]
    dsimp only
    rw [h]
    rw [if_pos rfl]

-- ---------- C4 ----------

/-- C4: the token broker tries the anonymous request first; with no
credential file it returns (and caches) the empty token without any
further attempt; with a stored PAT it exchanges it for the identities in
order — the configured username first when present, else the conventional
fallback list `oauth2`, `token`, `""` — stopping at the first success; and
when every strategy fails it caches and returns the empty token instead of
raising. -/
theorem c4_acquireToken_strategy (env : TokenEnv) (repo : String) (st : Caches) :
    (tokenScript env).2.head? = some TokenAttempt.anon ∧
    (anonOk env = false → env.tokenFile = none →
      tokenScript env = ("", [TokenAttempt.anon]) ∧
      (ghcrGetRegistryToken env repo true st).1 = "" ∧
      (ghcrGetRegistryToken env repo true st).2.1.tokenCache.lookup repo = some "") ∧
    (∀ pat, anonOk env = false → env.tokenFile = some pat → pat ≠ "" →
      (tokenScript env).2 = TokenAttempt.anon :: (runIdentities env (identityList env)).2 ∧
      (configuredUser env ≠ "" → (identityList env).head? = some (configuredUser env)) ∧
      (configuredUser env = "" → identityList env = ["oauth2", "token", ""]) ∧
      (∀ pre u post r, identityList env = pre ++ u :: post →
        (∀ v ∈ pre, basicOk env v = false) → env.basic u = some r → r ≠ "" →
        (tokenScript env).1 = r)) ∧
    (anonOk env = false →
      (env.tokenFile = none ∨ env.tokenFile = some "" ∨
        (∀ u ∈ identityList env, basicOk env u = false)) →
      (ghcrGetRegistryToken env repo true st).1 = "" ∧
      (ghcrGetRegistryToken env repo true st).2.1.tokenCache.lookup repo = some "") := by
  have hscriptEmpty : anonOk env = false →
      (env.tokenFile = none ∨ env.tokenFile = some "" ∨
        (∀ u ∈ identityList env, basicOk env u = false)) →
      (tokenScript env).1 = "" := by
    intro ha hcases
    rw [tokenScript_of_anon_fail env ha]
    rcases hcases with h | h | h
    · rw [tokenScriptCreds_none env h]
    · rw [tokenScriptCreds_emptyPat env h]
    · cases hf : env.tokenFile with
      | none => rw [tokenScriptCreds_none env hf]
      | some pat =>
        by_cases hp : pat = ""
        · rw [hp] at hf
          rw [tokenScriptCreds_emptyPat env hf]
        · rw [tokenScriptCreds_pat env pat hf hp, runIdentities_all_fail env _ h]
  refine ⟨tokenScript_head env, ?_, ?_, ?_⟩
  · intro ha hf
    have hs : tokenScript env = ("", [TokenAttempt.anon]) := by
      rw [tokenScript_of_anon_fail env ha, tokenScriptCreds_none env hf]
    have hw := ghcrGetRegistryToken_empty_out env repo st (by rw [hs])
    refine ⟨hs, ?_, ?_⟩
    · rw [hw]
    · rw [hw]
      exact lookup_mapSet_self st.tokenCache repo ""
  · intro pat ha hf hp
    refine ⟨?_, ?_, ?_, ?_⟩
    · rw [tokenScript_of_anon_fail env ha, tokenScriptCreds_pat env pat hf hp]
    · intro hu
      unfold identityList
      rw [if_pos hu]
      rfl
    · intro hu
      unfold identityList
      rw [if_neg (by rw [hu]; exact fun h => h rfl)]
      rfl
    · intro pre u post r hsplit hpre hb hr
      rw [tokenScript_of_anon_fail env ha, tokenScriptCreds_pat env pat hf hp]
      dsimp only
      rw [hsplit, runIdentities_first_success env pre u post r hpre hb hr]
  · intro ha hcases
    have hw := ghcrGetRegistryToken_empty_out env repo st (hscriptEmpty ha hcases)
    refine ⟨?_, ?_⟩
    · rw [hw]
    · rw [hw]
      exact lookup_mapSet_self st.tokenCache repo ""

/-- Token environment of the C4 witness: anonymous request fails and no
credential file exists. -/
def c4Env : TokenEnv :=
  { spawnFails := false, anon := none, basic := fun _ => none,
    tokenFile := none, userFile := none, parse := fun _ => Except.error () }

/-- Witness for C4: on `c4Env` the first attempt is anonymous and
`acquireToken` returns empty without throwing. -/
theorem c4_acquireToken_strategy_witness :
    (tokenScript c4Env).2.head? = some TokenAttempt.anon ∧
    (ghcrGetRegistryToken c4Env "app" true emptyCaches).1 = "" :=
  ⟨(c4_acquireToken_strategy c4Env "app" emptyCaches).1,
   ((c4_acquireToken_strategy c4Env "app" emptyCaches).2.1 rfl rfl).2.1⟩

-- ---------- C5 ----------

/-- C5: when the external command fails, every resolver operation
terminates normally with its well-defined "nothing found" result — empty
token, empty tag list, empty description, empty package list — instead of
propagating an exception (each embedding is a total function whose
`try/catch` branch yields exactly these defaults). -/
theorem c5_no_exception_nothing_found (envT : TokenEnv) (envTg : TagsEnv)
    (envD : DescEnv) (envO : OrgEnv) (repo fullName tagIn : String)
    (now : Nat) (st : Caches)
    (h1 : envT.spawnFails = true) (h2 : envTg.spawnOut = none)
    (h3 : envD.spawnFails = true) (h4 : envO.spawnOut = none) :
    (ghcrGetRegistryToken envT repo true st).1 = "" ∧
    (fetchGhcrTags envTg envT fullName true st).1 = [] ∧
    (fetchGhcrOciDescription envT envD fullName tagIn true st).1 = "" ∧
    (fetchGhcrOrgPackages envO now true st).1 = [] := by
  refine ⟨?_, ?_, ?_, ?_⟩
  · unfold ghcrGetRegistryToken
    rw [if_neg (by simp), if_pos h1]
  · unfold fetchGhcrTags
    by_cases hr : parseGhcrRepoName fullName = ""
    · rw [if_pos hr]
    · rw [if_neg hr, if_neg (by simp)]
      dsimp only
      rw [h2]
  · unfold fetchGhcrOciDescription
    by_cases hr : parseGhcrRepoName fullName = ""
    · rw [if_pos hr]
    · rw [if_neg hr]
      dsimp only
      rw [if_neg (by simp), if_pos h3]
  · unfold fetchGhcrOrgPackages
    rw [if_neg (by simp)]
    dsimp only
    rw [h4]

/-- An environment whose token spawn rejects. -/
def failTokenEnv : TokenEnv :=
  { spawnFails := true, anon := none, basic := fun _ => none,
    tokenFile := none, userFile := none, parse := fun _ => Except.error () }

/-- An environment whose tag-listing spawn rejects. -/
def failTagsEnv : TagsEnv := { spawnOut := none, parse := fun _ => Except.error () }

/-- An environment whose description spawn rejects. -/
def failDescEnv : DescEnv :=
  { spawnFails := true, manifests := fun _ => none, blobs := fun _ => none }

/-- An environment whose org-listing spawn rejects. -/
def failOrgEnv : OrgEnv := { spawnOut := none, parse := fun _ => Except.error () }

/-- Witness for C5: with every spawn failing, all four operations return
their empty results. -/
theorem c5_no_exception_nothing_found_witness :
    (ghcrGetRegistryToken failTokenEnv "app" true emptyCaches).1 = "" ∧
    (fetchGhcrTags failTagsEnv failTokenEnv "ghcr.io/versa-node/app" true emptyCaches).1 = [] ∧
    (fetchGhcrOciDescription failTokenEnv failDescEnv "ghcr.io/versa-node/app" "latest" true
      emptyCaches).1 = "" ∧
    (fetchGhcrOrgPackages failOrgEnv 5 true emptyCaches).1 = [] :=
  c5_no_exception_nothing_found failTokenEnv failTagsEnv failDescEnv failOrgEnv
    "app" "ghcr.io/versa-node/app" "latest" 5 emptyCaches rfl rfl rfl rfl

-- ---------- C6 ----------

theorem ghcrGetRegistryToken_miss (env : TokenEnv) (repo : String) (st : Caches)
    (hmiss : st.tokenCache.lookup repo = none) :
    (ghcrGetRegistryToken env repo false st).2.2 = 1 ∧
    (ghcrGetRegistryToken env repo false st).2.1.tokenCache.lookup repo =
      some (ghcrGetRegistryToken env repo false st).1 := by
  unfold ghcrGetRegistryToken
  rw [if_neg (by simp [hmiss])]
  by_cases hs : env.spawnFails = true
  · rw [if_pos hs]
    exact ⟨rfl, lookup_mapSet_self st.tokenCache repo ""⟩
  · rw [if_neg hs]
    dsimp only
    by_cases ho : (tokenScript env).1 = ""
    · rw [if_pos ho]
      exact ⟨rfl, lookup_mapSet_self st.tokenCache repo ""⟩
    · rw [if_neg ho]
      cases hp : env.parse (tokenScript env).1 with
      | error e =>
        exact ⟨rfl, lookup_mapSet_self st.tokenCache repo ""⟩
      | ok t =>
        exact ⟨rfl, lookup_mapSet_self st.tokenCache repo (jsTrim (t.getD ""))⟩

theorem ghcrGetRegistryToken_hit (env : TokenEnv) (repo : String) (st : Caches)
    (v : String) (h : st.tokenCache.lookup repo = some v) :
    ghcrGetRegistryToken env repo false st = (v, st, 0) := by
  unfold ghcrGetRegistryToken
  rw [if_pos (by simp [h]), h]
  rfl

theorem ghcrGetRegistryToken_bypass_count (env : TokenEnv) (repo : String)
    (st : Caches) : (ghcrGetRegistryToken env repo true st).2.2 = 1 := by
  unfold ghcrGetRegistryToken
  rw [if_neg (by simp)]
  by_cases hs : env.spawnFails = true
  · rw [if_pos hs]
  · rw [if_neg hs]
    dsimp only
    by_cases ho : (tokenScript env).1 = ""
    · rw [if_pos ho]
    · rw [if_neg ho]
      cases hp : env.parse (tokenScript env).1 with
      | error e => rfl
      | ok t => rfl

/-- C6: starting from a cache miss, two successive `acquireToken` calls
with `bypassCache = false` issue exactly one underlying network call — the
first spawns once and caches, the second returns the cached value with no
spawn and no state change — and a subsequent call with `bypassCache = true`
spawns again regardless of freshness. -/
theorem c6_token_cache_single_network_call (env : TokenEnv) (repo : String)
    (st : Caches) (hmiss : st.tokenCache.lookup repo = none) :
    (ghcrGetRegistryToken env repo false st).2.2 = 1 ∧
    (ghcrGetRegistryToken env repo false
        (ghcrGetRegistryToken env repo false st).2.1) =
      ((ghcrGetRegistryToken env repo false st).1,
       (ghcrGetRegistryToken env repo false st).2.1, 0) ∧
    (ghcrGetRegistryToken env repo true
        (ghcrGetRegistryToken env repo false st).2.1).2.2 = 1 := by
  obtain ⟨hcount, hcached⟩ := ghcrGetRegistryToken_miss env repo st hmiss
  refine ⟨hcount, ?_, ghcrGetRegistryToken_bypass_count env repo _⟩
  exact ghcrGetRegistryToken_hit env repo _ _ hcached

/-- Witness for C6: on the failing token environment and the empty cache,
the first call spawns once, the second is served from the cache, and the
bypassing third call spawns again. -/
theorem c6_token_cache_single_network_call_witness :
    (ghcrGetRegistryToken failTokenEnv "app" false emptyCaches).2.2 = 1 ∧
    (ghcrGetRegistryToken failTokenEnv "app" false
        (ghcrGetRegistryToken failTokenEnv "app" false emptyCaches).2.1) =
      ((ghcrGetRegistryToken failTokenEnv "app" false emptyCaches).1,
       (ghcrGetRegistryToken failTokenEnv "app" false emptyCaches).2.1, 0) ∧
    (ghcrGetRegistryToken failTokenEnv "app" true
        (ghcrGetRegistryToken failTokenEnv "app" false emptyCaches).2.1).2.2 = 1 :=
  c6_token_cache_single_network_call failTokenEnv "app" emptyCaches rfl

-- ---------- Enrichment Orchestrator (enrichListWithDescriptions, 508-532) ----------

/-- `out[i]` of the JavaScript list (our lists are never indexed out of
range; the default entry is returned for an out-of-range index). -/
def entryAt (list : List PackageEntry) (i : Nat) : PackageEntry :=
  (list.get? i).getD { name := "", description := "" }

/-- The index set the orchestrator fans out over:
`list.map((row,i) => regex.test(row.name) ? i : -1).filter(i => i >= 0)`. -/
def enrichIdxs (list : List PackageEntry) : List Nat :=
  (List.range list.length).filter (fun i => matchesVersaNode (entryAt list i).name)

/-- One description promise:
`fetch(n).then(desc => desc || "").catch(() => "")`. -/
def resolveDesc (f : String → Except Unit String) (n : String) : String :=
  match f n with
  | Except.ok d => d
  | Except.error _ => ""

/-- The repository names the orchestrator invokes the resolution chain
for (one spawn chain per index in `enrichIdxs`). -/
def enrichCalls (list : List PackageEntry) : List String :=
  (enrichIdxs list).map (fun i => (entryAt list i).name)

/-- `out[i] = v` on a JavaScript array copy. -/
def listModify {α : Type} : List α → Nat → (α → α) → List α
  | [], _, _ => []
  | a :: t, 0, f => f a :: t
  | a :: t, Nat.succ n, f => a :: listModify t n f

/-- The merge loop: `descs.forEach((desc, k) => { const i = idxs[k];
if (desc) out[i] = {...out[i], description: desc}; })`. -/
def enrichMerge (pairs : List (Nat × String)) (out : List PackageEntry) :
    List PackageEntry :=
  pairs.foldl
    (fun acc p =>
      if p.2 ≠ "" then listModify acc p.1 (fun e => { e with description := p.2 })
      else acc)
    out

/-- `enrichListWithDescriptions` with the per-name resolution chain
abstracted as `f`: fan out over the matching indices, await all results,
merge the non-empty ones back by index. -/
def enrichListWithDescriptions (f : String → Except Unit String)
    (list : List PackageEntry) : List PackageEntry :=
  let idxs := enrichIdxs list
  let descs := idxs.map (fun i => resolveDesc f (entryAt list i).name)
  enrichMerge (idxs.zip descs) list

/-- `enrichListWithDescriptions` with the chain instantiated as in the
source: each entry resolved against the `"latest"` tag. -/
def enrichListWithDescriptionsFull (envT : TokenEnv) (envD : DescEnv)
    (bypassCache : Bool) (st : Caches) (list : List PackageEntry) :
    List PackageEntry :=
  enrichListWithDescriptions
    (fun n => Except.ok (fetchGhcrOciDescription envT envD n "latest" bypassCache st).1)
    list

-- ---------- enrichment helper lemmas ----------

theorem entryAt_cons_succ (e : PackageEntry) (l : List PackageEntry) (i : Nat) :
    entryAt (e :: l) (i + 1) = entryAt l i := rfl

theorem listModify_get? {α : Type} (f : α → α) :
    ∀ (l : List α) (i j : Nat),
      (listModify l i f).get? j = if i = j then (l.get? j).map f else l.get? j := by
  intro l
  induction l with
  | nil =>
    intro i j
    cases i <;> simp [listModify]
  | cons a t ih =>
    intro i j
    cases i with
    | zero =>
      cases j with
      | zero => simp [listModify]
      | succ j => simp [listModify]
    | succ i =>
      cases j with
      | zero => simp [listModify]
      | succ j => simpa [listModify] using ih i j

theorem enrichMerge_get?_not_mem :
    ∀ (ps : List (Nat × String)) (acc : List PackageEntry) (j : Nat),
      (∀ p ∈ ps, p.1 ≠ j) → (enrichMerge ps acc).get? j = acc.get? j := by
  intro ps
  induction ps with
  | nil => intro acc j _; rfl
  | cons p rest ih =>
    intro acc j h
    have hp : p.1 ≠ j := h p (List.mem_cons_self _ _)
    have hrest := fun q hq => h q (List.mem_cons_of_mem _ hq)
    unfold enrichMerge
    rw [List.foldl_cons]
    by_cases hd : p.2 ≠ ""
    · rw [if_pos hd]
      rw [show List.foldl _ _ _ = enrichMerge rest (listModify acc p.1
        (fun e => { e with description := p.2 })) from rfl]
      rw [ih _ j hrest, listModify_get? _ acc p.1 j, if_neg hp]
    · rw [if_neg hd]
      rw [show List.foldl _ _ _ = enrichMerge rest acc from rfl]
      exact ih _ j hrest

theorem enrichMerge_get? :
    ∀ (ps : List (Nat × String)) (acc : List PackageEntry) (j : Nat),
      (ps.map Prod.fst).Nodup →
      (enrichMerge ps acc).get? j =
        (match ps.find? (fun p => p.1 == j) with
         | some p =>
           if p.2 ≠ "" then (acc.get? j).map (fun e => { e with description := p.2 })
           else acc.get? j
         | none => acc.get? j) := by
  intro ps
  induction ps with
  | nil => intro acc j _; rfl
  | cons p rest ih =>
    intro acc j hnd
    have hnd' : (rest.map Prod.fst).Nodup := (List.nodup_cons.mp hnd).2
    have hnotmem : p.1 ∉ rest.map Prod.fst := (List.nodup_cons.mp hnd).1
    unfold enrichMerge
    rw [List.foldl_cons]
    by_cases hij : p.1 = j
    · have hbeq : (p.1 == j) = true := by simp [hij]
      rw [show List.find? (fun q => q.1 == j) (p :: rest) = some p from by
        simp [List.find?, hbeq]]
      dsimp only
      have hrestne : ∀ q ∈ rest, q.1 ≠ j := by
        intro q hq hc
        exact hnotmem (hij ▸ hc ▸ List.mem_map_of_mem Prod.fst hq)
      by_cases hd : p.2 ≠ ""
      · rw [if_pos hd, if_pos hd]
        rw [show List.foldl _ _ _ = enrichMerge rest (listModify acc p.1
          (fun e => { e with description := p.2 })) from rfl]
        rw [enrichMerge_get?_not_mem rest _ j hrestne]
        rw [listModify_get? _ acc p.1 j, if_pos hij]
      · rw [if_neg hd, if_neg hd]
        rw [show List.foldl _ _ _ = enrichMerge rest acc from rfl]
        exact enrichMerge_get?_not_mem rest acc j hrestne
    · have hbeq : (p.1 == j) = false := by simp [hij]
      rw [show List.find? (fun q => q.1 == j) (p :: rest) =
          List.find? (fun q => q.1 == j) rest from by simp [List.find?, hbeq]]
      by_cases hd : p.2 ≠ ""
      · rw [if_pos hd]
        rw [show List.foldl _ _ _ = enrichMerge rest (listModify acc p.1
          (fun e => { e with description := p.2 })) from rfl]
        rw [ih _ j hnd']
        have hacc : (listModify acc p.1 (fun e => { e with description := p.2 })).get? j
            = acc.get? j := by
          rw [listModify_get? _ acc p.1 j, if_neg hij]
        cases hf : rest.find? (fun q => q.1 == j) with
        | none => rw [hacc]
        | some q => rw [hacc]
      · rw [if_neg hd]
        rw [show List.foldl _ _ _ = enrichMerge rest acc from rfl]
        exact ih acc j hnd'

theorem mem_enrichIdxs {list : List PackageEntry} {j : Nat} :
    j ∈ enrichIdxs list ↔
      j < list.length ∧ matchesVersaNode (entryAt list j).name = true := by
  simp [enrichIdxs, List.mem_filter, List.mem_range]

theorem nodup_enrichIdxs (list : List PackageEntry) : (enrichIdxs list).Nodup :=
  (List.nodup_range list.length).filter _

theorem find?_beq_of_mem : ∀ (l : List Nat) (j : Nat), j ∈ l →
    l.find? (fun i => i == j) = some j := by
  intro l
  induction l with
  | nil => intro j h; simp at h
  | cons a rest ih =>
    intro j h
    by_cases ha : a = j
    · rw [show List.find? (fun i => i == j) (a :: rest) = some a from by
        simp [List.find?, ha]]
      rw [ha]
    · have hb : (a == j) = false := by simp [ha]
      rw [show List.find? (fun i => i == j) (a :: rest) =
          List.find? (fun i => i == j) rest from by simp [List.find?, hb]]
      rcases List.mem_cons.mp h with h' | h'
      · exact absurd h'.symm ha
      · exact ih j h'

theorem find?_beq_of_not_mem (l : List Nat) (j : Nat) (h : j ∉ l) :
    l.find? (fun i => i == j) = none := by
  apply List.find?_eq_none.mpr
  intro x hx
  simp only [beq_iff_eq]
  intro hc
  exact h (hc ▸ hx)

theorem zip_map_self {α β : Type} (g : α → β) :
    ∀ (l : List α), l.zip (l.map g) = l.map (fun a => (a, g a)) := by
  intro l
  induction l with
  | nil => rfl
  | cons a rest ih => simp [List.zip_cons_cons, ih]

theorem find?_pair_map (g : Nat → String) :
    ∀ (l : List Nat) (j : Nat),
      (l.map (fun i => (i, g i))).find? (fun p => p.1 == j) =
        (l.find? (fun i => i == j)).map (fun i => (i, g i)) := by
  intro l
  induction l with
  | nil => intro j; rfl
  | cons a rest ih =>
    intro j
    by_cases ha : a = j
    · rw [show List.find? (fun i => i == j) (a :: rest) = some a from by
        simp [List.find?, ha]]
      rw [show List.find? (fun p => p.1 == j)
          ((a :: rest).map (fun i => (i, g i))) = some (a, g a) from by
        simp [List.find?, ha]]
      rfl
    · have hb : (a == j) = false := by simp [ha]
      rw [show List.find? (fun i => i == j) (a :: rest) =
          List.find? (fun i => i == j) rest from by simp [List.find?, hb]]
      rw [show List.find? (fun p => p.1 == j)
          ((a :: rest).map (fun i => (i, g i))) =
          List.find? (fun p => p.1 == j) (rest.map (fun i => (i, g i))) from by
        simp [List.find?, hb]]
      exact ih j

theorem enrich_get? (f : String → Except Unit String) (list : List PackageEntry)
    (j : Nat) :
    (enrichListWithDescriptions f list).get? j =
      (list.get? j).map (fun e =>
        if matchesVersaNode e.name = true ∧ resolveDesc f e.name ≠ "" then
          { e with description := resolveDesc f e.name }
        else e) := by
  unfold enrichListWithDescriptions
  dsimp only
  rw [zip_map_self (fun i => resolveDesc f (entryAt list i).name) (enrichIdxs list)]
  rw [enrichMerge_get? _ list j (by
    rw [show (((enrichIdxs list).map
        (fun i => (i, resolveDesc f (entryAt list i).name))).map Prod.fst) =
        enrichIdxs list from by simp [Function.comp_def]]
    exact nodup_enrichIdxs list)]
  rw [find?_pair_map (fun i => resolveDesc f (entryAt list i).name) (enrichIdxs list) j]
  cases hj : list.get? j with
  | none =>
    have hlen : list.length ≤ j := List.get?_eq_none.mp hj
    have hnm : j ∉ enrichIdxs list := by
      intro hc
      exact absurd (mem_enrichIdxs.mp hc).1 (not_lt.mpr hlen)
    rw [find?_beq_of_not_mem _ j hnm]
    rfl
  | some e =>
    have hlt : j < list.length := by
      by_contra hc
      rw [List.get?_eq_none.mpr (not_lt.mp hc)] at hj
      exact Option.noConfusion hj
    have hent : entryAt list j = e := by
      unfold entryAt
      rw [hj]
      rfl
    by_cases hm : matchesVersaNode e.name = true
    · have hmem : j ∈ enrichIdxs list :=
        mem_enrichIdxs.mpr ⟨hlt, by rw [hent]; exact hm⟩
      rw [find?_beq_of_mem _ j hmem]
      show (if resolveDesc f (entryAt list j).name ≠ "" then
          some { e with description := resolveDesc f (entryAt list j).name }
        else some e) =
        some (if matchesVersaNode e.name = true ∧ resolveDesc f e.name ≠ "" then
          { e with description := resolveDesc f e.name } else e)
      rw [hent]
      by_cases hd : resolveDesc f e.name ≠ ""
      · rw [if_pos hd, if_pos ⟨hm, hd⟩]
      · rw [if_neg hd, if_neg (fun hc => hd hc.2)]
    · have hnm : j ∉ enrichIdxs list := by
        intro hc
        apply hm
        have hmm := (mem_enrichIdxs.mp hc).2
        rw [hent] at hmm
        exact hmm
      rw [find?_beq_of_not_mem _ j hnm]
      show some e =
        some (if matchesVersaNode e.name = true ∧ resolveDesc f e.name ≠ "" then
          { e with description := resolveDesc f e.name } else e)
      rw [if_neg (fun hc => hm hc.1)]

theorem enrichCalls_eq : ∀ (list : List PackageEntry),
    enrichCalls list =
      (list.filter (fun e => matchesVersaNode e.name)).map (fun e => e.name) := by
  intro list
  induction list with
  | nil => rfl
  | cons e rest ih =>
    unfold enrichCalls enrichIdxs at ih ⊢
    rw [List.length_cons, List.range_succ_eq_map]
    rw [List.filter_cons]
    rw [List.filter_map]
    have hps : ((fun i => matchesVersaNode (entryAt (e :: rest) i).name) ∘ Nat.succ)
        = fun i => matchesVersaNode (entryAt rest i).name := by
      funext i
      rfl
    rw [hps]
    rw [List.filter_cons]
    have hgs : ((fun i => (entryAt (e :: rest) i).name) ∘ Nat.succ)
        = fun i => (entryAt rest i).name := by
      funext i
      rfl
    by_cases hm : matchesVersaNode e.name = true
    · rw [if_pos (show matchesVersaNode (entryAt (e :: rest) 0).name = true from hm),
          if_pos hm]
      simp only [List.map_cons]
      rw [List.map_map, hgs, ih]
      rfl
    · rw [if_neg (show ¬ matchesVersaNode (entryAt (e :: rest) 0).name = true from hm),
          if_neg hm]
      rw [List.map_map, hgs, ih]

-- ---------- C7 ----------

/-- The C7 counterexample entry: a versa-node row that already carries a
description. -/
def c7Entry : PackageEntry :=
  { name := "ghcr.io/versa-node/app", description := "already described" }

/-- C7 counterexample: the orchestrator invokes the resolution chain for a
versa-node entry even though it already has a description, so the invoked
set is not "exactly the entries still lacking a description". -/
theorem c7_counterexample :
    enrichCalls [c7Entry] = ["ghcr.io/versa-node/app"] ∧
    c7Entry.description ≠ "" := by
  constructor
  · rfl
  · decide

/-- C7 (amended): `enrich` runs the Token Broker → Manifest Resolver →
Config Label Extractor chain against the `"latest"` tag exactly for the
entries whose name lies under `ghcr.io/versa-node/` — whether or not they
already have a description — and merges each non-empty resolved
description into its entry of the returned list once the whole batch has
settled (the merge loop runs only after `Promise.all`). -/
theorem c7_enrich_amended (envT : TokenEnv) (envD : DescEnv) (b : Bool)
    (st : Caches) (list : List PackageEntry) :
    enrichCalls list =
      (list.filter (fun e => matchesVersaNode e.name)).map (fun e => e.name) ∧
    (∀ j e, list.get? j = some e →
      (enrichListWithDescriptionsFull envT envD b st list).get? j =
        some (if matchesVersaNode e.name = true ∧
                (fetchGhcrOciDescription envT envD e.name "latest" b st).1 ≠ "" then
                { e with description :=
                    (fetchGhcrOciDescription envT envD e.name "latest" b st).1 }
              else e)) := by
  refine ⟨enrichCalls_eq list, ?_⟩
  intro j e hj
  have h := enrich_get?
    (fun n => Except.ok (fetchGhcrOciDescription envT envD n "latest" b st).1) list j
  unfold enrichListWithDescriptionsFull
  rw [h, hj]
  rfl

/-- Witness for C7: on the one-entry list whose description is already
set, with a failing description environment, the chain is still invoked
and the entry is returned unchanged. -/
theorem c7_enrich_amended_witness :
    enrichCalls [c7Entry] = ["ghcr.io/versa-node/app"] ∧
    (enrichListWithDescriptionsFull failTokenEnv failDescEnv true emptyCaches
        [c7Entry]).get? 0 = some c7Entry := by
  have h := c7_enrich_amended failTokenEnv failDescEnv true emptyCaches [c7Entry]
  refine ⟨h.1, ?_⟩
  rw [h.2 0 c7Entry rfl]
  decide

-- ---------- C8 ----------

/-- C8: an entry whose description resolution fails (rejects) or resolves
to the empty string keeps its original entry unchanged, and such a
per-entry failure never aborts the batch: every other matching entry whose
resolution yields a non-empty description is still merged. -/
theorem c8_enrich_per_entry_failure (f : String → Except Unit String)
    (list : List PackageEntry) (j : Nat) (e : PackageEntry)
    (hj : list.get? j = some e)
    (hfail : f e.name = Except.error () ∨ f e.name = Except.ok "") :
    (enrichListWithDescriptions f list).get? j = some e ∧
    (∀ k e', list.get? k = some e' → matchesVersaNode e'.name = true →
      resolveDesc f e'.name ≠ "" →
      (enrichListWithDescriptions f list).get? k =
        some { e' with description := resolveDesc f e'.name }) := by
  constructor
  · have h := enrich_get? f list j
    rw [hj] at h
    rw [h]
    have hres : resolveDesc f e.name = "" := by
      rcases hfail with hf | hf
      · unfold resolveDesc
        rw [hf]
      · unfold resolveDesc
        rw [hf]
    simp only [Option.map_some']
    rw [if_neg (fun hc => hc.2 hres)]
  · intro k e' hk hm hd
    have h := enrich_get? f list k
    rw [hk] at h
    rw [h]
    simp only [Option.map_some']
    rw [if_pos ⟨hm, hd⟩]

/-- The resolution oracle of the C8 witness: fails on repository `a`,
succeeds with `"B"` elsewhere. -/
def c8f : String → Except Unit String :=
  fun n => if n = "ghcr.io/versa-node/a" then Except.error () else Except.ok "B"

/-- The two-entry list of the C8 witness. -/
def c8List : List PackageEntry :=
  [{ name := "ghcr.io/versa-node/a", description := "orig" },
   { name := "ghcr.io/versa-node/b", description := "" }]

/-- Witness for C8: entry 0's failed resolution leaves it unchanged while
entry 1 is still resolved and merged. -/
theorem c8_enrich_per_entry_failure_witness :
    (enrichListWithDescriptions c8f c8List).get? 0 =
      some { name := "ghcr.io/versa-node/a", description := "orig" } ∧
    (enrichListWithDescriptions c8f c8List).get? 1 =
      some { name := "ghcr.io/versa-node/b", description := "B" } := by
  have h := c8_enrich_per_entry_failure c8f c8List 0
    { name := "ghcr.io/versa-node/a", description := "orig" } rfl
    (Or.inl (by simp [c8f]))
  refine ⟨h.1, ?_⟩
  have h2 := h.2 1 { name := "ghcr.io/versa-node/b", description := "" } rfl
    (by decide) (by decide)
  rw [h2]
  decide

-- ---------- Resolution Cache reload (onReload, lines 680-698) ----------

/-- The `names.forEach` loop of `onReload`: delete the token and tag-list
entries of each visible repository (skipping names that parse to an empty
repo). -/
def reloadDeleteRepos : List String → Caches → Caches
  | [], st => st
  | n :: rest, st =>
    reloadDeleteRepos rest
      (if parseGhcrRepoName n ≠ "" then
        { st with tokenCache := mapDelete st.tokenCache (parseGhcrRepoName n),
                  tagsCache := mapDelete st.tagsCache (parseGhcrRepoName n) }
      else st)

/-- `imageList.map(x => x?.name).filter(Boolean)`: the non-empty names of
the currently displayed entries. -/
def visibleNames (names : List String) : List String :=
  names.filter (fun n => n ≠ "")

/-- The repositories the reload invalidates. -/
def visibleRepos (names : List String) : List String :=
  ((visibleNames names).map parseGhcrRepoName).filter (fun r => r ≠ "")

/-- The cache-invalidation part of `onReload`: delete the token and
tag-list entries of the visible repositories and every description entry
whose key starts with a visible `name + "@"`; the org-listing entry is not
touched. -/
def onReloadInvalidate (names : List String) (st : Caches) : Caches :=
  let ns := visibleNames names
  let st1 := reloadDeleteRepos ns st
  { st1 with
    descCache :=
      st1.descCache.filter (fun p => !(ns.any (fun n => jsStartsWith p.1 (n ++ "@")))) }

-- ---------- cache lookup lemmas ----------

theorem lookup_filterKey {α : Type} (q : String → Bool) :
    ∀ (m : List (String × α)) (k : String),
      (m.filter (fun p => q p.1)).lookup k = if q k = true then m.lookup k else none := by
  intro m
  induction m with
  | nil =>
    intro k
    cases hq : q k <;> simp [List.filter]
  | cons p rest ih =>
    intro k
    obtain ⟨pk, pv⟩ := p
    rw [List.filter_cons]
    by_cases hk : k = pk
    · have hbk : (k == pk) = true := by simp [hk]
      by_cases hq : q (pk, pv).1 = true
      · rw [if_pos hq]
        have hqk : q k = true := by rw [hk]; exact hq
        rw [if_pos hqk]
        rw [show List.lookup k ((pk, pv) :: List.filter (fun x => q x.1) rest) =
            some pv from by simp [List.lookup, hbk]]
        rw [show List.lookup k ((pk, pv) :: rest) = some pv from by
          simp [List.lookup, hbk]]
      · rw [if_neg hq]
        have hqk : ¬ q k = true := by rw [hk]; exact hq
        rw [ih k, if_neg hqk, if_neg hqk]
    · have hbk : (k == pk) = false := by simp [hk]
      have hskip : List.lookup k ((pk, pv) :: rest) = List.lookup k rest := by
        simp [List.lookup, hbk]
      by_cases hq : q (pk, pv).1 = true
      · rw [if_pos hq]
        rw [show List.lookup k ((pk, pv) :: List.filter (fun x => q x.1) rest) =
            List.lookup k (List.filter (fun x => q x.1) rest) from by
          simp [List.lookup, hbk]]
        rw [ih k]
        by_cases hqk : q k = true
        · rw [if_pos hqk, if_pos hqk, hskip]
        · rw [if_neg hqk, if_neg hqk]
      · rw [if_neg hq, ih k]
        by_cases hqk : q k = true
        · rw [if_pos hqk, if_pos hqk, hskip]
        · rw [if_neg hqk, if_neg hqk]

theorem lookup_mapDelete {α : Type} (m : List (String × α)) (k j : String) :
    (mapDelete m k).lookup j = if j = k then none else m.lookup j := by
  unfold mapDelete
  rw [show (m.filter (fun p => p.1 ≠ k)) =
      (m.filter (fun p => (fun x => decide (x ≠ k)) p.1)) from rfl]
  rw [lookup_filterKey (fun x => decide (x ≠ k)) m j]
  by_cases hjk : j = k
  · rw [if_pos hjk, if_neg (by simp [hjk])]
  · rw [if_neg hjk, if_pos (by simp [hjk])]

theorem reloadDeleteRepos_desc_org :
    ∀ (ns : List String) (st : Caches),
      (reloadDeleteRepos ns st).descCache = st.descCache ∧
      (reloadDeleteRepos ns st).orgList = st.orgList ∧
      (reloadDeleteRepos ns st).orgAt = st.orgAt := by
  intro ns
  induction ns with
  | nil => intro st; exact ⟨rfl, rfl, rfl⟩
  | cons n rest ih =>
    intro st
    unfold reloadDeleteRepos
    by_cases hp : parseGhcrRepoName n ≠ ""
    · rw [if_pos hp]
      exact ih _
    · rw [if_neg hp]
      exact ih _

theorem reloadDeleteRepos_token_lookup :
    ∀ (ns : List String) (st : Caches) (r : String),
      (reloadDeleteRepos ns st).tokenCache.lookup r =
        if r ∈ (ns.map parseGhcrRepoName).filter (fun x => x ≠ "") then none
        else st.tokenCache.lookup r := by
  intro ns
  induction ns with
  | nil =>
    intro st r
    rw [if_neg (by simp)]
    rfl
  | cons n rest ih =>
    intro st r
    unfold reloadDeleteRepos
    have hmem : (r ∈ ((n :: rest).map parseGhcrRepoName).filter (fun x => x ≠ "")) ↔
        ((parseGhcrRepoName n = r ∧ r ≠ "") ∨
         r ∈ (rest.map parseGhcrRepoName).filter (fun x => x ≠ "")) := by
      simp only [List.map_cons, List.filter_cons]
      by_cases hn : parseGhcrRepoName n ≠ ""
      · rw [if_pos (by simp [hn])]
        constructor
        · intro h
          rcases List.mem_cons.mp h with h' | h'
          · left
            exact ⟨h'.symm, h' ▸ hn⟩
          · right; exact h'
        · rintro (⟨h1, _⟩ | h')
          · rw [h1]; exact List.mem_cons_self _ _
          · exact List.mem_cons_of_mem _ h'
      · rw [if_neg (by simp [hn])]
        constructor
        · intro h; right; exact h
        · rintro (⟨h1, h2⟩ | h')
          · exact absurd (h1 ▸ hn) (fun hc => hc (fun he => h2 (h1 ▸ he)))
          · exact h'
    by_cases hp : parseGhcrRepoName n ≠ ""
    · rw [if_pos hp, ih _ r]
      by_cases hrest : r ∈ (rest.map parseGhcrRepoName).filter (fun x => x ≠ "")
      · rw [if_pos hrest, if_pos (hmem.mpr (Or.inr hrest))]
      · rw [if_neg hrest]
        dsimp only
        rw [lookup_mapDelete st.tokenCache (parseGhcrRepoName n) r]
        by_cases hr : r = parseGhcrRepoName n
        · rw [if_pos hr, if_pos (hmem.mpr (Or.inl ⟨hr.symm, hr ▸ hp⟩))]
        · rw [if_neg hr, if_neg (by
            intro hc
            rcases hmem.mp hc with ⟨h1, _⟩ | h'
            · exact hr h1.symm
            · exact hrest h')]
    · rw [if_neg hp, ih _ r]
      have hpe : parseGhcrRepoName n = "" := by
        by_contra hc
        exact hp hc
      by_cases hrest : r ∈ (rest.map parseGhcrRepoName).filter (fun x => x ≠ "")
      · rw [if_pos hrest, if_pos (hmem.mpr (Or.inr hrest))]
      · rw [if_neg hrest, if_neg (by
          intro hc
          rcases hmem.mp hc with ⟨h1, h2⟩ | h'
          · exact h2 (h1 ▸ hpe)
          · exact hrest h')]

theorem reloadDeleteRepos_tags_lookup :
    ∀ (ns : List String) (st : Caches) (r : String),
      (reloadDeleteRepos ns st).tagsCache.lookup r =
        if r ∈ (ns.map parseGhcrRepoName).filter (fun x => x ≠ "") then none
        else st.tagsCache.lookup r := by
  intro ns
  induction ns with
  | nil =>
    intro st r
    rw [if_neg (by simp)]
    rfl
  | cons n rest ih =>
    intro st r
    unfold reloadDeleteRepos
    have hmem : (r ∈ ((n :: rest).map parseGhcrRepoName).filter (fun x => x ≠ "")) ↔
        ((parseGhcrRepoName n = r ∧ r ≠ "") ∨
         r ∈ (rest.map parseGhcrRepoName).filter (fun x => x ≠ "")) := by
      simp only [List.map_cons, List.filter_cons]
      by_cases hn : parseGhcrRepoName n ≠ ""
      · rw [if_pos (by simp [hn])]
        constructor
        · intro h
          rcases List.mem_cons.mp h with h' | h'
          · left
            exact ⟨h'.symm, h' ▸ hn⟩
          · right; exact h'
        · rintro (⟨h1, _⟩ | h')
          · rw [h1]; exact List.mem_cons_self _ _
          · exact List.mem_cons_of_mem _ h'
      · rw [if_neg (by simp [hn])]
        constructor
        · intro h; right; exact h
        · rintro (⟨h1, h2⟩ | h')
          · exact absurd (h1 ▸ hn) (fun hc => hc (fun he => h2 (h1 ▸ he)))
          · exact h'
    by_cases hp : parseGhcrRepoName n ≠ ""
    · rw [if_pos hp, ih _ r]
      by_cases hrest : r ∈ (rest.map parseGhcrRepoName).filter (fun x => x ≠ "")
      · rw [if_pos hrest, if_pos (hmem.mpr (Or.inr hrest))]
      · rw [if_neg hrest]
        dsimp only
        rw [lookup_mapDelete st.tagsCache (parseGhcrRepoName n) r]
        by_cases hr : r = parseGhcrRepoName n
        · rw [if_pos hr, if_pos (hmem.mpr (Or.inl ⟨hr.symm, hr ▸ hp⟩))]
        · rw [if_neg hr, if_neg (by
            intro hc
            rcases hmem.mp hc with ⟨h1, _⟩ | h'
            · exact hr h1.symm
            · exact hrest h')]
    · rw [if_neg hp, ih _ r]
      have hpe : parseGhcrRepoName n = "" := by
        by_contra hc
        exact hp hc
      by_cases hrest : r ∈ (rest.map parseGhcrRepoName).filter (fun x => x ≠ "")
      · rw [if_pos hrest, if_pos (hmem.mpr (Or.inr hrest))]
      · rw [if_neg hrest, if_neg (by
          intro hc
          rcases hmem.mp hc with ⟨h1, h2⟩ | h'
          · exact h2 (h1 ▸ hpe)
          · exact hrest h')]

-- ---------- description-key prefix lemmas ----------

theorem isPrefixOf_append_self :
    ∀ (l r : List Char) (x : Char), (l ++ [x]).isPrefixOf (l ++ x :: r) = true := by
  intro l
  induction l with
  | nil => intro r x; simp [List.isPrefixOf]
  | cons a t ih => intro r x; simp [List.isPrefixOf, ih]

/-- A string is free of the `@` cache-key separator. -/
def atFree (s : String) : Prop := ∀ c ∈ s.data, c ≠ '@'

instance : DecidablePred atFree :=
  fun s => inferInstanceAs (Decidable (∀ c ∈ s.data, c ≠ '@'))

theorem prefix_at_iff :
    ∀ (n nm t : List Char), (∀ c ∈ n, c ≠ '@') → (∀ c ∈ nm, c ≠ '@') →
      ((n ++ ['@']).isPrefixOf (nm ++ '@' :: t) = true ↔ n = nm) := by
  intro n
  induction n with
  | nil =>
    intro nm t _ hnm
    cases nm with
    | nil => simp [List.isPrefixOf]
    | cons c nm' =>
      have hc : c ≠ '@' := hnm c (List.mem_cons_self _ _)
      simp [List.isPrefixOf]
      exact fun h => hc h.symm
  | cons a n' ih =>
    intro nm t hn hnm
    have ha : a ≠ '@' := hn a (List.mem_cons_self _ _)
    cases nm with
    | nil =>
      simp [List.isPrefixOf, ha]
    | cons b nm' =>
      have hn' := fun c hc => hn c (List.mem_cons_of_mem _ hc)
      have hnm' := fun c hc => hnm c (List.mem_cons_of_mem _ hc)
      rw [show ((a :: n') ++ ['@']) = a :: (n' ++ ['@']) from rfl,
          show ((b :: nm') ++ '@' :: t) = b :: (nm' ++ '@' :: t) from rfl]
      simp only [List.isPrefixOf, Bool.and_eq_true, beq_iff_eq, List.cons.injEq]
      rw [ih nm' t hn' hnm']

theorem string_append_data (a b : String) : (a ++ b).data = a.data ++ b.data :=
  String.data_append a b

theorem descKey_data (nm tag : String) :
    (nm ++ "@" ++ tag).data = nm.data ++ '@' :: tag.data := by
  rw [string_append_data, string_append_data]
  rw [show ("@" : String).data = ['@'] from rfl]
  rw [List.append_assoc]
  rfl

theorem jsStartsWith_descKey_self (nm tag : String) :
    jsStartsWith (nm ++ "@" ++ tag) (nm ++ "@") = true := by
  unfold jsStartsWith
  rw [descKey_data, string_append_data,
      show ("@" : String).data = ['@'] from rfl]
  exact isPrefixOf_append_self nm.data tag.data '@'

theorem jsStartsWith_descKey_iff (n nm tag : String) (hn : atFree n) (hnm : atFree nm) :
    jsStartsWith (nm ++ "@" ++ tag) (n ++ "@") = true ↔ n = nm := by
  unfold jsStartsWith
  rw [descKey_data, string_append_data,
      show ("@" : String).data = ['@'] from rfl]
  rw [prefix_at_iff n.data nm.data tag.data hn hnm]
  constructor
  · intro h
    exact String.ext h
  · intro h
    rw [h]

-- ---------- C9 ----------

/-- C9: reload invalidates exactly the token, tag-list and description
cache entries of the currently visible repositories: entries of visible
repos are gone afterwards, entries keyed by any other repository are
unchanged, and the org-listing entry's stored value and timestamp are
untouched. -/
theorem c9_reload_scoped_invalidation (names : List String) (st : Caches) :
    (∀ r, r ∈ visibleRepos names →
      (onReloadInvalidate names st).tokenCache.lookup r = none ∧
      (onReloadInvalidate names st).tagsCache.lookup r = none) ∧
    (∀ r, r ∉ visibleRepos names →
      (onReloadInvalidate names st).tokenCache.lookup r = st.tokenCache.lookup r ∧
      (onReloadInvalidate names st).tagsCache.lookup r = st.tagsCache.lookup r) ∧
    (∀ nm tag, nm ∈ visibleNames names →
      (onReloadInvalidate names st).descCache.lookup (nm ++ "@" ++ tag) = none) ∧
    (∀ nm tag, atFree nm → (∀ n ∈ visibleNames names, atFree n) →
      nm ∉ visibleNames names →
      (onReloadInvalidate names st).descCache.lookup (nm ++ "@" ++ tag) =
        st.descCache.lookup (nm ++ "@" ++ tag)) ∧
    (onReloadInvalidate names st).orgList = st.orgList ∧
    (onReloadInvalidate names st).orgAt = st.orgAt := by
  have htok : (onReloadInvalidate names st).tokenCache =
      (reloadDeleteRepos (visibleNames names) st).tokenCache := rfl
  have htags : (onReloadInvalidate names st).tagsCache =
      (reloadDeleteRepos (visibleNames names) st).tagsCache := rfl
  have hdesc : (onReloadInvalidate names st).descCache =
      st.descCache.filter (fun p =>
        (fun key => !((visibleNames names).any
          (fun n => jsStartsWith key (n ++ "@")))) p.1) := by
    show (reloadDeleteRepos (visibleNames names) st).descCache.filter _ = _
    rw [(reloadDeleteRepos_desc_org (visibleNames names) st).1]
  refine ⟨?_, ?_, ?_, ?_, ?_, ?_⟩
  · intro r hr
    unfold visibleRepos at hr
    constructor
    · rw [htok, reloadDeleteRepos_token_lookup (visibleNames names) st r, if_pos hr]
    · rw [htags, reloadDeleteRepos_tags_lookup (visibleNames names) st r, if_pos hr]
  · intro r hr
    unfold visibleRepos at hr
    constructor
    · rw [htok, reloadDeleteRepos_token_lookup (visibleNames names) st r, if_neg hr]
    · rw [htags, reloadDeleteRepos_tags_lookup (visibleNames names) st r, if_neg hr]
  · intro nm tag hmem
    rw [hdesc, lookup_filterKey (fun key => !((visibleNames names).any
        (fun n => jsStartsWith key (n ++ "@")))) st.descCache (nm ++ "@" ++ tag)]
    have hany : (visibleNames names).any
        (fun n => jsStartsWith (nm ++ "@" ++ tag) (n ++ "@")) = true :=
      List.any_eq_true.mpr ⟨nm, hmem, jsStartsWith_descKey_self nm tag⟩
    rw [if_neg (by rw [hany]; simp)]
  · intro nm tag hfree hallfree hnot
    rw [hdesc, lookup_filterKey (fun key => !((visibleNames names).any
        (fun n => jsStartsWith key (n ++ "@")))) st.descCache (nm ++ "@" ++ tag)]
    have hall : ∀ n ∈ visibleNames names,
        jsStartsWith (nm ++ "@" ++ tag) (n ++ "@") = false := by
      intro n hn
      cases hj : jsStartsWith (nm ++ "@" ++ tag) (n ++ "@") with
      | false => rfl
      | true =>
        have := (jsStartsWith_descKey_iff n nm tag (hallfree n hn) hfree).mp hj
        exact absurd (this ▸ hn) hnot
    have hany : (visibleNames names).any
        (fun n => jsStartsWith (nm ++ "@" ++ tag) (n ++ "@")) = false := by
      rw [List.any_eq_false]
      intro n hn
      rw [hall n hn]
      exact Bool.false_ne_true
    rw [if_pos (by rw [hany]; rfl)]
  · show (reloadDeleteRepos (visibleNames names) st).orgList = st.orgList
    exact (reloadDeleteRepos_desc_org (visibleNames names) st).2.1
  · show (reloadDeleteRepos (visibleNames names) st).orgAt = st.orgAt
    exact (reloadDeleteRepos_desc_org (visibleNames names) st).2.2

/-- Cache state of the C9 witness: entries for the visible repository `a`
and the unrelated repository `z`, plus an org listing. -/
def c9St : Caches :=
  { tokenCache := [("a", "tokA"), ("z", "tokZ")],
    tagsCache := [("a", ["latest"])],
    descCache := [("ghcr.io/versa-node/a@latest", "dA"),
                  ("ghcr.io/versa-node/z@latest", "dZ")],
    orgList := some [],
    orgAt := 7 }

/-- Witness for C9: reloading with `ghcr.io/versa-node/a` visible clears
exactly that repository's entries and leaves `z`'s entries and the org
listing alone. -/
theorem c9_reload_scoped_invalidation_witness :
    (onReloadInvalidate ["ghcr.io/versa-node/a"] c9St).tokenCache.lookup "a" = none ∧
    (onReloadInvalidate ["ghcr.io/versa-node/a"] c9St).tokenCache.lookup "z" =
      c9St.tokenCache.lookup "z" ∧
    (onReloadInvalidate ["ghcr.io/versa-node/a"] c9St).descCache.lookup
      ("ghcr.io/versa-node/a" ++ "@" ++ "latest") = none ∧
    (onReloadInvalidate ["ghcr.io/versa-node/a"] c9St).descCache.lookup
      ("ghcr.io/versa-node/z" ++ "@" ++ "latest") =
      c9St.descCache.lookup ("ghcr.io/versa-node/z" ++ "@" ++ "latest") ∧
    (onReloadInvalidate ["ghcr.io/versa-node/a"] c9St).orgList = c9St.orgList :=
  have h := c9_reload_scoped_invalidation ["ghcr.io/versa-node/a"] c9St
  ⟨(h.1 "a" (by decide)).1,
   (h.2.1 "z" (by decide)).1,
   h.2.2.1 "ghcr.io/versa-node/a" "latest" (by decide),
   h.2.2.2.1 "ghcr.io/versa-node/z" "latest" (by decide) (by decide) (by decide),
   h.2.2.2.2.1⟩

-- ---------- C10 ----------

/-- Description environment of the C10 counterexample: tag `1.0` and tag
`latest` resolve to different labels. -/
def c10DescEnv : DescEnv :=
  { spawnFails := false,
    manifests := fun r =>
      if r = "1.0" then
        some { mediaType := "application/vnd.oci.image.manifest.v1+json",
               configDigest := "sha256:one", manifests := [] }
      else if r = "latest" then
        some { mediaType := "application/vnd.oci.image.manifest.v1+json",
               configDigest := "sha256:two", manifests := [] }
      else none,
    blobs := fun d =>
      if d = "sha256:one" then
        some { labels := [("org.opencontainers.image.description", "one")] }
      else if d = "sha256:two" then
        some { labels := [("org.opencontainers.image.description", "two")] }
      else none }

/-- C10 counterexample: the tag `" 1.0"` is non-empty and contains a
character outside `[A-Za-z0-9._-]` (the leading space), yet the operation
does NOT behave as if called with `"latest"`: the tag is trimmed before
validation, so the request and cache key use `"1.0"`. -/
theorem c10_counterexample :
    (" 1.0" : String) ≠ "" ∧
    (" 1.0" : String).data.all isValidTagChar = false ∧
    (fetchGhcrOciDescription failTokenEnv c10DescEnv "ghcr.io/versa-node/app"
        " 1.0" true emptyCaches).1 = "one" ∧
    (fetchGhcrOciDescription failTokenEnv c10DescEnv "ghcr.io/versa-node/app"
        "latest" true emptyCaches).1 = "two" ∧
    ("one" : String) ≠ "two" := by
  refine ⟨by decide, by decide, ?_, ?_, by decide⟩
  · rfl
  · rfl

/-- C10 (amended): the incoming tag is defaulted to `"latest"` when empty
and then trimmed; when the TRIMMED tag is empty or contains a character
outside `[A-Za-z0-9._-]`, the operation behaves exactly as if called with
`"latest"`; and the sanitized tag is the one used for the description
cache key (under which the result is stored), so no unsanitized tag
reaches the spawned command or the cache. -/
theorem c10_tag_sanitization_amended (envT : TokenEnv) (envD : DescEnv)
    (fullName tagIn : String) (b : Bool) (st : Caches)
    (hbad : jsTrim (if tagIn = "" then "latest" else tagIn) = "" ∨
      (jsTrim (if tagIn = "" then "latest" else tagIn)).data.all isValidTagChar = false) :
    fetchGhcrOciDescription envT envD fullName tagIn b st =
      fetchGhcrOciDescription envT envD fullName "latest" b st ∧
    (parseGhcrRepoName fullName ≠ "" →
      (fetchGhcrOciDescription envT envD fullName tagIn true st).2.descCache.lookup
          (fullName ++ "@" ++ sanitizeTag tagIn) =
        some (fetchGhcrOciDescription envT envD fullName tagIn true st).1) := by
  have hsan : sanitizeTag tagIn = "latest" := by
    unfold sanitizeTag
    have hval : validTag (jsTrim (if tagIn = "" then "latest" else tagIn)) = false := by
      unfold validTag
      rcases hbad with h | h
      · rw [h]
        decide
      · rw [h]
        simp
    show (if validTag (jsTrim (if tagIn = "" then "latest" else tagIn)) = true then
        jsTrim (if tagIn = "" then "latest" else tagIn)
      else "latest") = "latest"
    rw [hval]
    rfl
  have hsame : sanitizeTag tagIn = sanitizeTag "latest" := by
    rw [hsan]
    decide
  constructor
  · unfold fetchGhcrOciDescription
    rw [hsame]
  · intro hrepo
    unfold fetchGhcrOciDescription
    rw [if_neg hrepo]
    dsimp only
    rw [if_neg (by simp)]
    by_cases hs : envD.spawnFails = true
    · rw [if_pos hs]
      exact lookup_mapSet_self _ _ ""
    · rw [if_neg hs]
      exact lookup_mapSet_self _ _ _

/-- Witness for C10: a tag with a forbidden character behaves exactly as
`"latest"` and the result is cached under the sanitized key. -/
theorem c10_tag_sanitization_amended_witness :
    fetchGhcrOciDescription failTokenEnv failDescEnv "ghcr.io/versa-node/app"
        "bad tag!" true emptyCaches =
      fetchGhcrOciDescription failTokenEnv failDescEnv "ghcr.io/versa-node/app"
        "latest" true emptyCaches ∧
    (fetchGhcrOciDescription failTokenEnv failDescEnv "ghcr.io/versa-node/app"
        "bad tag!" true emptyCaches).2.descCache.lookup
        ("ghcr.io/versa-node/app" ++ "@" ++ sanitizeTag "bad tag!") =
      some (fetchGhcrOciDescription failTokenEnv failDescEnv "ghcr.io/versa-node/app"
        "bad tag!" true emptyCaches).1 :=
  have h := c10_tag_sanitization_amended failTokenEnv failDescEnv
    "ghcr.io/versa-node/app" "bad tag!" true emptyCaches (Or.inr (by decide))
  ⟨h.1, h.2 (by decide)⟩
